import Mathlib

/-!
Verification of the htmx-lsp2 language server core against its
natural-language specification.

Shallow embedding conventions:
* Rust `&str` values that undergo byte/character surgery (htmx_tags.rs) are
  modelled as `List Char`; all inputs of interest are ASCII, where Rust's
  byte indices coincide with character indices.
* Rust `usize` is modelled as `Nat`; the one place where the source can
  underflow (`start + part.len() - 1` in `get_tags`) is modelled explicitly
  with `Except Unit`, whose `.error ()` stands for the Rust panic (debug)
  or wrap-around (release).
* `DashMap` key-value stores are modelled as association lists with unique
  keys; the uniqueness invariant is maintained by the operations themselves
  (insert-if-absent) and proved where a claim needs it.
* tree-sitter is an external collaborator: parse trees and query matching
  are abstracted as streams of captures (label, text, start point, end
  point); the repository's own logic over those captures
  (`query_props`, `query_name`, `query_value`, `query_position`) is
  embedded faithfully.
-/

namespace Htmx

/-! ## htmx_tags.rs -/

/-- Rust struct `Tag` (htmx_tags.rs). Field `endc` models the Rust field
`end` (a Lean keyword). `name`, `start`, `endc` are the tag name and its
0-indexed column span; `file` the owning file id; `line` the line number. -/
structure Tag where
  name : List Char
  start : Nat
  endc : Nat
  file : Nat
  line : Nat
deriving DecidableEq, Repr

/-- Characters of a string literal, for readable concrete inputs. -/
def strL (s : String) : List Char := s.toList

/-- The separator `"hx@"` used by `get_tag`. -/
def hxAt : List Char := strL "hx@"

/-- Rust `str::split(sep)` for a non-empty string separator: fuel-driven so
that it is structurally recursive (the fuel is the input length, consumed
at least one character per step). Splits at non-overlapping occurrences
left to right, keeping leading/trailing empty segments, like Rust. -/
def splitOnAux (sep : List Char) : Nat → List Char → List (List Char)
  | _, [] => [[]]
  | 0, _ => [[]]
  | fuel + 1, x :: xs =>
    if sep.isPrefixOf (x :: xs) then
      [] :: splitOnAux sep fuel (xs.drop (sep.length - 1))
    else
      match splitOnAux sep fuel xs with
      | [] => [[x]]
      | h :: t => (x :: h) :: t

/-- Rust `str::split(sep)` with a string separator. -/
def splitOnL (sep xs : List Char) : List (List Char) :=
  splitOnAux sep xs.length xs

/-- Rust `str::split(c)` with a character separator. -/
def splitCh (c : Char) : List Char → List (List Char)
  | [] => [[]]
  | x :: xs =>
    if x = c then [] :: splitCh c xs
    else
      match splitCh c xs with
      | [] => [[x]]
      | h :: t => (x :: h) :: t

/-- Rust `str::find(pat)`: index of the first occurrence of `pat`
(byte index in Rust; identical to the character index for ASCII). -/
def findSub (pat : List Char) : List Char → Option Nat
  | [] => if pat = [] then some 0 else none
  | x :: xs =>
    if pat.isPrefixOf (x :: xs) then some 0
    else (findSub pat xs).map (· + 1)

/-- Rust `get_tag` (htmx_tags.rs lines 34-54): split the line on `"hx@"`,
keep only segments without a space, take the first such segment, take its
first space-separated field, search the line for `"hx@" ++ field`, and
build the tag with `end = start + 2 + field.len()`. -/
def getTag (line : List Char) : Option Tag :=
  let parts := splitOnL hxAt line
  match parts.filter (fun data => !(data.contains ' ')) with
  | [] => none
  | first :: _ =>
    match splitCh ' ' first with
    | [] => none
    | f :: _ =>
      let full := hxAt ++ f
      match findSub full line with
      | some start => some ⟨f, start, start + 2 + f.length, 0, 0⟩
      | none => none

/-- The per-part loop of Rust `get_tags`: `start = start_char`,
`end = start + part.len() - 1`, `start_char = end + 2`. The subtraction is
on `usize` and underflows exactly when `start + part.len() = 0`; that case
is modelled as `.error ()` (panic in debug builds, wrap-around in release
builds). -/
def goTags : List (List Char) → Nat → Nat → Except Unit (List Tag)
  | [], _, _ => .ok []
  | part :: rest, sc, line =>
    if sc + part.length = 0 then .error ()
    else
      let e := sc + part.length - 1
      match goTags rest (e + 2) line with
      | .error err => .error err
      | .ok ts => .ok (⟨part, sc, e, 0, line⟩ :: ts)

/-- Rust `get_tags` (htmx_tags.rs lines 56-76): `None` when the value starts
with a space or contains a double space, otherwise one tag per
space-separated part. -/
def getTags (value : List Char) (startChar line : Nat) :
    Except Unit (Option (List Tag)) :=
  if value.head? = some ' ' ∨ (findSub (strL "  ") value).isSome = true then
    .ok none
  else
    match goTags (splitCh ' ' value) startChar line with
    | .error err => .error err
    | .ok ts => .ok (some ts)

/-! ### Tag scanner lemmas -/

/-- Every tag produced by the `get_tags` loop satisfies
`end + 1 = start + part.len()` (the end column is the index of the part's
last character — inclusive, not exclusive). -/
theorem goTags_spec :
    ∀ (parts : List (List Char)) (sc ln : Nat) (ts : List Tag),
      goTags parts sc ln = .ok ts →
      ∀ t ∈ ts, t.endc + 1 = t.start + t.name.length := by
  intro parts
  induction parts with
  | nil =>
    intro sc ln ts h t ht
    simp only [goTags] at h
    cases h
    simp at ht
  | cons p rest ih =>
    intro sc ln ts h t ht
    simp only [goTags] at h
    split at h
    · exact absurd h (by simp)
    · rename_i hne
      split at h
      · exact absurd h (by simp)
      · rename_i ts' hrest
        cases h
        rcases List.mem_cons.mp ht with ht | ht
        · subst ht
          simp only [Tag.mk.injEq] at *
          omega
        · exact ih _ _ _ hrest t ht

/-- The `get_tags` loop never underflows when the incoming start column is
positive (after the first part, the running column is always positive). -/
theorem goTags_ok_pos :
    ∀ (parts : List (List Char)) (sc ln : Nat), 0 < sc →
      ∃ ts, goTags parts sc ln = .ok ts := by
  intro parts
  induction parts with
  | nil => intro sc ln _; exact ⟨[], rfl⟩
  | cons p rest ih =>
    intro sc ln h
    have h1 : ¬ (sc + p.length = 0) := by omega
    obtain ⟨ts, hts⟩ := ih (sc + p.length - 1 + 2) ln (by omega)
    exact ⟨⟨p, sc, sc + p.length - 1, 0, ln⟩ :: ts,
      by simp only [goTags, if_neg h1, hts]⟩

/-- Splitting a list that starts with a non-separator character yields a
non-empty first segment starting with that character. -/
theorem splitCh_cons_ne (c x : Char) (xs : List Char) (h : ¬ x = c) :
    ∃ hh tt, splitCh c (x :: xs) = (x :: hh) :: tt := by
  simp only [splitCh, if_neg h]
  cases splitCh c xs with
  | nil => exact ⟨[], [], rfl⟩
  | cons a b => exact ⟨a, b, rfl⟩

/-- Claim C5, counterexample. On the line `"x hx@ab"`, `get_tag` recognizes
the token `hx@ab` at columns 2..6 with `end - start = 4`, while the whole
token `hx@ab` has length 5: `end - start` is NOT the token length, so the
end column is the column OF the token's last character, not the first
column after it. -/
theorem c5_counterexample :
    getTag (strL "x hx@ab") = some ⟨strL "ab", 2, 6, 0, 0⟩ ∧
    ¬ ((6 : Nat) - 2 = (hxAt ++ strL "ab").length) :=
  ⟨rfl, by decide⟩

/-- Claim C5, amended: every Tag produced by `get_tag` satisfies
`end = start + 2 + name.len()` — one less than the length of the whole
`hx@name` token — and every Tag produced by `get_tags` satisfies
`end + 1 = start + part.len()`; i.e. the end column is 0-indexed and
INCLUSIVE of the trailing boundary (the index of the last character). -/
theorem c5_end_column :
    (∀ (line : List Char) (t : Tag), getTag line = some t →
      t.endc = t.start + 2 + t.name.length) ∧
    (∀ (v : List Char) (sc ln : Nat) (ts : List Tag),
      getTags v sc ln = .ok (some ts) →
      ∀ t ∈ ts, t.endc + 1 = t.start + t.name.length) := by
  constructor
  · intro line t h
    simp only [getTag] at h
    split at h
    · exact absurd h (by simp)
    · split at h
      · exact absurd h (by simp)
      · split at h
        · cases h; simp
        · exact absurd h (by simp)
  · intro v sc ln ts h t ht
    simp only [getTags] at h
    split at h
    · exact absurd h (by simp)
    · split at h
      · exact absurd h (by simp)
      · rename_i ts' hok
        cases h
        exact goTags_spec _ _ _ _ hok t ht

/-- Witness for `c5_end_column`, at `get_tag "x hx@ab"` and
`get_tags "hx@a" 0 0`. -/
theorem c5_witness :
    ((⟨strL "ab", 2, 6, 0, 0⟩ : Tag).endc
      = (⟨strL "ab", 2, 6, 0, 0⟩ : Tag).start + 2 + (strL "ab").length) ∧
    (∀ t ∈ [(⟨strL "hx@a", 0, 3, 0, 0⟩ : Tag)],
      t.endc + 1 = t.start + t.name.length) :=
  ⟨c5_end_column.1 (strL "x hx@ab") _ rfl,
   c5_end_column.2 (strL "hx@a") 0 0 _ rfl⟩

/-- Claim C6 (code bug): on the line `"hx@a"` — a line consisting of
space-separated `hx@identifier` tokens with no leading space and no double
space — the whole-line scan `get_tag` and the multi-tag scan `get_tags`
disagree: `get_tag` mistakes the empty segment before the leading `"hx@"`
for the tag name and returns name `""` with span 0..2, while `get_tags`
returns the full token `"hx@a"` with span 0..3. The spec requires both to
agree on the same token boundaries. -/
theorem c6_scan_disagreement :
    getTag (strL "hx@a") = some ⟨[], 0, 2, 0, 0⟩ ∧
    getTags (strL "hx@a") 0 0 = .ok (some [⟨strL "hx@a", 0, 3, 0, 0⟩]) :=
  ⟨rfl, rfl⟩

/-- Claim C10, counterexample: `get_tags("", 0, 0)` reaches the end-column
computation `start + part.len() - 1` with `start + part.len() = 0` and
underflows (panic in debug builds, wrap-around in release builds); the
function is not total. -/
theorem c10_counterexample : getTags (strL "") 0 0 = .error () := rfl

/-- Claim C10, amended: `get_tags(value, start_char, line)` is total for
every input except `value = ""` with `start_char = 0` (the only way
`start + part.len() - 1` can underflow); on every other input it returns
`None` exactly when the value starts with a space or contains a double
space, and a list of Tags otherwise. -/
theorem c10_totality (v : List Char) (sc ln : Nat) (h : v ≠ [] ∨ sc ≠ 0) :
    ∃ r, getTags v sc ln = .ok r ∧
      (r = none ↔
        (v.head? = some ' ' ∨ (findSub (strL "  ") v).isSome = true)) := by
  by_cases hg : v.head? = some ' ' ∨ (findSub (strL "  ") v).isSome = true
  · exact ⟨none, by simp only [getTags, if_pos hg], iff_of_true rfl hg⟩
  · cases v with
    | nil =>
      have hsc : sc ≠ 0 := by
        rcases h with h | h
        · exact absurd rfl h
        · exact h
      obtain ⟨ts, hts⟩ :=
        goTags_ok_pos (splitCh ' ' []) sc ln (Nat.pos_of_ne_zero hsc)
      exact ⟨some ts, by simp only [getTags, if_neg hg, hts],
        iff_of_false (by simp) hg⟩
    | cons x xs =>
      have hx : ¬ x = ' ' := by
        intro e
        exact hg (Or.inl (by simp [e]))
      obtain ⟨hh, tt, hsplit⟩ := splitCh_cons_ne ' ' x xs hx
      have h1 : ¬ (sc + (x :: hh).length = 0) := by simp
      obtain ⟨ts', hts'⟩ :=
        goTags_ok_pos tt (sc + (x :: hh).length - 1 + 2) ln (by omega)
      have hgo : goTags ((x :: hh) :: tt) sc ln
          = .ok (⟨x :: hh, sc, sc + (x :: hh).length - 1, 0, ln⟩ :: ts') := by
        simp only [goTags, if_neg h1, hts']
      refine ⟨some (⟨x :: hh, sc, sc + (x :: hh).length - 1, 0, ln⟩ :: ts'),
        ?_, iff_of_false (by simp) hg⟩
      simp only [getTags, if_neg hg, hsplit, hgo]

/-- Witness for `c10_totality`, at `get_tags "a" 0 0`. -/
theorem c10_witness :
    ((strL "a") ≠ [] ∨ (0 : Nat) ≠ 0) ∧
    ∃ r, getTags (strL "a") 0 0 = .ok r ∧
      (r = none ↔
        ((strL "a").head? = some ' '
          ∨ (findSub (strL "  ") (strL "a")).isSome = true)) :=
  ⟨Or.inl (by decide), c10_totality (strL "a") 0 0 (Or.inl (by decide))⟩

/-! ## position.rs

tree-sitter is an external collaborator: the HTML grammar, the parse tree,
`descendant_for_point_range`, `find_element_referent_to_current_node` and
the query-cursor machinery are outside this repository. What the repository
owns is the logic over the capture streams produced by running the
`HX_NAME` / `HX_VALUE` queries (queries.rs) on the element containing the
cursor: `query_props` folds the stream into a label-keyed map, and
`query_name` / `query_value` / `query_position` classify the cursor from
that map. A capture is modelled as (label, node text, node start point,
node end point). -/

/-- tree-sitter `Point`: (row, column), compared lexicographically. -/
structure Point where
  row : Nat
  column : Nat
deriving DecidableEq, Repr

/-- Rust `trigger_point < other` on tree-sitter Points (derived
lexicographic order on (row, column)). -/
def ptLtB (a b : Point) : Bool :=
  decide (a.row < b.row) ||
    (decide (a.row = b.row) && decide (a.column < b.column))

/-- Rust `trigger_point <= other` on tree-sitter Points. -/
def ptLeB (a b : Point) : Bool :=
  decide (a.row < b.row) ||
    (decide (a.row = b.row) && decide (a.column ≤ b.column))

theorem ptLtB_iff (a b : Point) :
    ptLtB a b = true ↔
      (a.row < b.row ∨ (a.row = b.row ∧ a.column < b.column)) := by
  simp [ptLtB]

theorem ptLeB_iff (a b : Point) :
    ptLeB a b = true ↔
      (a.row < b.row ∨ (a.row = b.row ∧ a.column ≤ b.column)) := by
  simp [ptLeB]

/-- If `a < b` then not `b <= a` (points are totally ordered). -/
theorem ptLeB_false_of_ltB {a b : Point} (h : ptLtB a b = true) :
    ptLeB b a = false := by
  rcases (ptLtB_iff a b).mp h with h1 | ⟨h1, h2⟩ <;>
    · rw [← Bool.not_eq_true, ptLeB_iff]
      omega

/-- If `a <= b` then not `b < a`. -/
theorem ptLtB_false_of_leB {a b : Point} (h : ptLeB a b = true) :
    ptLtB b a = false := by
  rcases (ptLeB_iff a b).mp h with h1 | ⟨h1, h2⟩ <;>
    · rw [← Bool.not_eq_true, ptLtB_iff]
      omega

/-- A point is never strictly before itself. -/
theorem ptLtB_self (a : Point) : ptLtB a a = false := by
  rw [← Bool.not_eq_true, ptLtB_iff]
  omega

/-- Rust struct `CaptureDetails` (position.rs lines 16-20): capture text and
node end position. -/
structure CaptureDetails where
  value : String
  endPos : Point
deriving DecidableEq, Repr

/-- Rust enum `Position` (position.rs lines 22-26). -/
inductive Position where
  | AttributeName (s : String)
  | AttributeValue (name value : String)
deriving DecidableEq, Repr

/-- Rust enum `QueryType` (position.rs lines 10-14). -/
inductive QueryType where
  | Hover
  | Completion
deriving DecidableEq, Repr

/-- One tree-sitter query capture, as consumed by `query_props`: the capture
label (from `query.capture_names()`), the node's source text
(`utf8_text`, `""` on invalid UTF-8), and the node's start/end positions. -/
structure Capture where
  capName : String
  text : String
  startPos : Point
  endPos : Point
deriving DecidableEq, Repr

/-- `HashMap::get` on the capture map (association list model; keys are
unique by construction of `propsInsert`). -/
def propsGet (ps : List (String × CaptureDetails)) (k : String) :
    Option CaptureDetails :=
  match ps with
  | [] => none
  | (k', v) :: rest => if k' = k then some v else propsGet rest k

/-- `HashMap::insert` on the capture map: overwrite the existing entry for
the key, or append. -/
def propsInsert (ps : List (String × CaptureDetails)) (k : String)
    (v : CaptureDetails) : List (String × CaptureDetails) :=
  match ps with
  | [] => [(k, v)]
  | (k', v') :: rest =>
    if k' = k then (k, v) :: rest else (k', v') :: propsInsert rest k v

/-- Rust `query_props` (position.rs lines 52-91): keep the captures whose
node start position is `<=` the trigger point, and fold them into a map
keyed by capture label, later captures overwriting earlier ones. -/
def queryProps (captures : List Capture) (tp : Point) :
    List (String × CaptureDetails) :=
  (captures.filter (fun c => ptLeB c.startPos tp)).foldl
    (fun acc c => propsInsert acc c.capName ⟨c.text, c.endPos⟩) []

/-- Rust `query_name` (position.rs lines 117-146), over the map produced by
the `HX_NAME` query. -/
def queryName (props : List (String × CaptureDetails)) (tp : Point)
    (qt : QueryType) : Option Position :=
  match propsGet props "attr_name" with
  | none => none
  | some attrName =>
    match propsGet props "unfinished_tag" with
    | none => some (.AttributeName attrName.value)
    | some unfinished =>
      match qt with
      | .Hover =>
        if (propsGet props "complete_match").isSome
            && ptLeB tp attrName.endPos then
          some (.AttributeName attrName.value)
        else
          none
      | .Completion =>
        if ptLtB unfinished.endPos tp then
          some (.AttributeName "--")
        else if (propsGet props "equal_error").isSome then
          none
        else
          some (.AttributeName attrName.value)

/-- Rust `query_value` (position.rs lines 148-195), over the map produced by
the `HX_VALUE` query. The Rust body calls
`props.get("attr_value").unwrap()` when a `non_empty_attribute` capture is
in the map but `attr_value` is not; that panic is modelled as
`.error ()`. -/
def queryValue (props : List (String × CaptureDetails)) (tp : Point)
    (qt : QueryType) : Except Unit (Option Position) :=
  match propsGet props "attr_name" with
  | none => .ok none
  | some attrName =>
    if ptLtB tp attrName.endPos && decide (qt = .Hover) then
      .ok (some (.AttributeName attrName.value))
    else if (propsGet props "open_quote_error").isSome
        || (propsGet props "empty_attribute").isSome then
      if decide (qt = .Completion)
          && (match propsGet props "quoted_attr_value" with
              | some quoted => ptLeB quoted.endPos tp
              | none => false) then
        .ok none
      else
        .ok (some (.AttributeValue attrName.value ""))
    else if (match propsGet props "error_char" with
             | some ec => decide (ec.value = "=")
             | none => false) then
      .ok none
    else
      match propsGet props "non_empty_attribute" with
      | none => .ok (some (.AttributeValue attrName.value ""))
      | some cap =>
        if ptLeB cap.endPos tp then
          .ok none
        else if qt = .Hover then
          match propsGet props "attr_value" with
          | some av => .ok (some (.AttributeValue attrName.value av.value))
          | none => .error ()
        else
          .ok (some (.AttributeValue attrName.value ""))

/-- Rust `query_position` (position.rs lines 101-115) on the element that
contains the cursor: run the `HX_NAME` query first and return its result
when it is `Some`, otherwise fall through to the `HX_VALUE` query.
`nameCaps` / `valueCaps` are the capture streams those two queries produce
on that element. -/
def queryPosition (nameCaps valueCaps : List Capture) (tp : Point)
    (qt : QueryType) : Except Unit (Option Position) :=
  match queryName (queryProps nameCaps tp) tp qt with
  | some p => .ok (some p)
  | none => queryValue (queryProps valueCaps tp) tp qt

/-! ### Position resolver lemmas -/

/-- `HashMap::insert` followed by `get`: the inserted key reads back the
inserted value, other keys are unchanged. -/
theorem propsInsert_get (ps : List (String × CaptureDetails)) (k : String)
    (v : CaptureDetails) (k' : String) :
    propsGet (propsInsert ps k v) k'
      = if k = k' then some v else propsGet ps k' := by
  induction ps with
  | nil =>
    by_cases h : k = k' <;> simp [propsInsert, propsGet, h]
  | cons hd tl ih =>
    obtain ⟨k1, v1⟩ := hd
    by_cases h1 : k1 = k
    · subst h1
      by_cases h2 : k1 = k' <;> simp [propsInsert, propsGet, h2]
    · by_cases h2 : k1 = k'
      · subst h2
        have : ¬ k = k1 := fun e => h1 e.symm
        simp [propsInsert, propsGet, h1, this]
      · simp [propsInsert, propsGet, h1, h2, ih]

/-- Provenance of every entry of the fold in `query_props`: any readable
entry either comes from one of the folded captures or was already in the
accumulator. -/
theorem foldl_props_origin :
    ∀ (cs : List Capture) (ps : List (String × CaptureDetails))
      (k : String) (cd : CaptureDetails),
      propsGet
          (cs.foldl
            (fun acc c => propsInsert acc c.capName ⟨c.text, c.endPos⟩) ps)
          k = some cd →
      (∃ c ∈ cs, c.capName = k ∧ cd = ⟨c.text, c.endPos⟩)
        ∨ propsGet ps k = some cd := by
  intro cs
  induction cs with
  | nil => intro ps k cd h; exact Or.inr h
  | cons c rest ih =>
    intro ps k cd h
    rcases ih _ _ _ h with ⟨c', hc', hk, hcd⟩ | h2
    · exact Or.inl ⟨c', List.mem_cons_of_mem _ hc', hk, hcd⟩
    · rw [propsInsert_get] at h2
      by_cases hk : c.capName = k
      · rw [if_pos hk] at h2
        cases h2
        exact Or.inl ⟨c, List.mem_cons_self _ _, hk, rfl⟩
      · rw [if_neg hk] at h2
        exact Or.inr h2

/-- Claim C1: for a syntactically complete `name="value"` attribute whose
name matches the `hx-` prefix, with the cursor strictly inside the quoted
value's span, Hover mode returns `AttributeValue{name, value}` with `value`
the exact text enclosed by the quotes.

Name side (`hname`): the first `HX_NAME` branch carries
`(#eq? @attr_name @complete_match)`, enforced by the query cursor's
predicate filtering, so it only matches a VALUE-LESS attribute (attribute
text = name text). Hence for the canonical input — every attribute of the
element valued, e.g. `<div hx-get="/foo">` — the name-side map has no
`attr_name` entry at all (left disjunct) and `query_name` bails out on the
missing key; when the element additionally contains a value-less `hx-`
attribute starting at or before the cursor, `attr_name` is that attribute's
name and the cursor — inside another attribute's value — is strictly past
its end, so the Hover arm still returns none (right disjunct; the
`unfinished_tag` branch has no text predicate on its own captures and
matches the element).

Value side: cursor-strictly-inside-the-value is expressed on the captures:
the cursor is at or past the attribute name's end (`h11`) and strictly
before the end of the whole `non_empty_attribute` node, whose last
character is the closing quote (`h12`); a complete attribute parses without
error nodes, so no `open_quote_error`, `empty_attribute` or `error_char`
capture exists (`h6`-`h8`); the `HX_VALUE` query binds `attr_value` to the
text between the quotes (`h10`). -/
theorem c1_hover_complete_value
    (nameCaps valueCaps : List Capture) (tp : Point)
    (va ne av : CaptureDetails)
    (hname : propsGet (queryProps nameCaps tp) "attr_name" = none
      ∨ ∃ na u,
          propsGet (queryProps nameCaps tp) "attr_name" = some na
          ∧ propsGet (queryProps nameCaps tp) "unfinished_tag" = some u
          ∧ ptLtB na.endPos tp = true)
    (h4 : propsGet (queryProps valueCaps tp) "attr_name" = some va)
    (h5 : (strL "hx-").isPrefixOf va.value.toList = true)
    (h6 : propsGet (queryProps valueCaps tp) "open_quote_error" = none)
    (h7 : propsGet (queryProps valueCaps tp) "empty_attribute" = none)
    (h8 : propsGet (queryProps valueCaps tp) "error_char" = none)
    (h9 : propsGet (queryProps valueCaps tp) "non_empty_attribute" = some ne)
    (h10 : propsGet (queryProps valueCaps tp) "attr_value" = some av)
    (h11 : ptLeB va.endPos tp = true)
    (h12 : ptLtB tp ne.endPos = true) :
    queryPosition nameCaps valueCaps tp .Hover
      = .ok (some (.AttributeValue va.value av.value)) := by
  have hn : queryName (queryProps nameCaps tp) tp .Hover = none := by
    rcases hname with h1 | ⟨na, u, h1, h2, h3⟩
    · simp [queryName, h1]
    · have hle : ptLeB tp na.endPos = false := ptLeB_false_of_ltB h3
      simp [queryName, h1, h2, hle]
  have hhov : ptLtB tp va.endPos = false := ptLtB_false_of_leB h11
  have hne : ptLeB ne.endPos tp = false := ptLeB_false_of_ltB h12
  simp [queryPosition, hn, queryValue, h4, hhov, h6, h7, h8, h9, h10, hne]

/-- Concrete capture stream (HX_NAME side) for the C1 witness, modelling
`<div hx-get="/foo">` with the cursor at (0,14), inside `/foo`: the first
`HX_NAME` branch is dropped by its `#eq? @attr_name @complete_match`
predicate (the attribute is valued), so only the `unfinished_tag` branch
matches, capturing nothing but the element node — in particular there is
no name-side `attr_name` capture. -/
def c1nameCaps : List Capture :=
  [⟨"unfinished_tag", "", ⟨0, 0⟩, ⟨0, 19⟩⟩]

/-- Concrete capture stream (HX_VALUE side) for the C1 witness: the
`non_empty_attribute` branch of `HX_VALUE` matches `hx-get="/foo"`,
binding the attribute name, the whole attribute node, and the text between
the quotes. -/
def c1valueCaps : List Capture :=
  [⟨"attr_name", "hx-get", ⟨0, 5⟩, ⟨0, 11⟩⟩,
   ⟨"non_empty_attribute", "", ⟨0, 5⟩, ⟨0, 18⟩⟩,
   ⟨"attr_value", "/foo", ⟨0, 13⟩, ⟨0, 17⟩⟩]

/-- Witness for `c1_hover_complete_value` at the captures of
`<div hx-get="/foo">`, cursor (0,14). -/
theorem c1_witness :
    queryPosition c1nameCaps c1valueCaps ⟨0, 14⟩ .Hover
      = .ok (some (.AttributeValue "hx-get" "/foo")) :=
  c1_hover_complete_value c1nameCaps c1valueCaps ⟨0, 14⟩
    ⟨"hx-get", ⟨0, 11⟩⟩ ⟨"", ⟨0, 18⟩⟩ ⟨"/foo", ⟨0, 17⟩⟩
    (Or.inl rfl) rfl (by decide) rfl rfl rfl rfl rfl
    (by decide) (by decide)

/-- Concrete capture stream for the C2 counterexample, modelling
`<div hx-get="" ...>` with the cursor at (0,11) — exactly the end position
of the attribute name `hx-get`, which spans columns 5..11. -/
def c2caps : List Capture :=
  [⟨"attr_name", "hx-get", ⟨0, 5⟩, ⟨0, 11⟩⟩,
   ⟨"unfinished_tag", "", ⟨0, 0⟩, ⟨0, 20⟩⟩,
   ⟨"complete_match", "", ⟨0, 5⟩, ⟨0, 18⟩⟩]

/-- Claim C2, counterexample: the cursor sits exactly at the attribute
name's end position (0,11) — past the name under an exclusive-end reading,
so that the name's span does not contain it — yet the resolver returns
that very `AttributeName`: the comparison
`trigger_point <= attr_name.end_position` in `query_name`'s Hover arm
treats the end boundary INCLUSIVELY. -/
theorem c2_counterexample :
    propsGet (queryProps c2caps ⟨0, 11⟩) "attr_name"
      = some ⟨"hx-get", ⟨0, 11⟩⟩ ∧
    queryPosition c2caps [] ⟨0, 11⟩ .Hover
      = .ok (some (.AttributeName "hx-get")) :=
  ⟨rfl, rfl⟩

/-- Claim C2, amended: point comparisons are lexicographic on
(line, column) and the resolver only ever reads captures whose node starts
at or before the cursor (conjunct 1), so an attribute starting after the
cursor is never selected; the end boundary is exclusive in `query_value`'s
comparison against a non-empty value's end (conjunct 3) and in the
unfinished-tag sentinel check of `query_name` (conjunct 4: at the
unfinished tag's end the sentinel is not produced), BUT `query_name`'s
Hover arm treats the attribute name's end boundary inclusively: a cursor
exactly at the name's end position still returns that `AttributeName`
(conjunct 2). -/
theorem c2_boundaries :
    (∀ (caps : List Capture) (tp : Point) (k : String)
        (cd : CaptureDetails),
      propsGet (queryProps caps tp) k = some cd →
      ∃ c ∈ caps, ptLeB c.startPos tp = true ∧ c.capName = k
        ∧ cd = ⟨c.text, c.endPos⟩)
    ∧ (∀ (props : List (String × CaptureDetails)) (a u : CaptureDetails),
      propsGet props "attr_name" = some a →
      propsGet props "unfinished_tag" = some u →
      (propsGet props "complete_match").isSome = true →
      queryName props a.endPos .Hover = some (.AttributeName a.value))
    ∧ (∀ (props : List (String × CaptureDetails)) (a ne : CaptureDetails)
        (qt : QueryType),
      propsGet props "attr_name" = some a →
      propsGet props "open_quote_error" = none →
      propsGet props "empty_attribute" = none →
      propsGet props "error_char" = none →
      propsGet props "non_empty_attribute" = some ne →
      ptLeB a.endPos ne.endPos = true →
      queryValue props ne.endPos qt = .ok none)
    ∧ (∀ (props : List (String × CaptureDetails)) (a u : CaptureDetails),
      propsGet props "attr_name" = some a →
      propsGet props "unfinished_tag" = some u →
      propsGet props "equal_error" = none →
      queryName props u.endPos .Completion = some (.AttributeName a.value)) := by
  refine ⟨?_, ?_, ?_, ?_⟩
  · intro caps tp k cd h
    unfold queryProps at h
    rcases foldl_props_origin _ _ _ _ h with ⟨c, hc, hk, hcd⟩ | h2
    · have hm := List.mem_filter.mp hc
      exact ⟨c, hm.1, hm.2, hk, hcd⟩
    · simp [propsGet] at h2
  · intro props a u h1 h2 h3
    simp [queryName, h1, h2, h3, ptLeB_iff]
  · intro props a ne qt h1 h2 h3 h4 h5 hle
    have hhov : ptLtB ne.endPos a.endPos = false := ptLtB_false_of_leB hle
    have hrefl : ptLeB ne.endPos ne.endPos = true := by
      rw [ptLeB_iff]; omega
    simp [queryValue, h1, h2, h3, h4, h5, hhov, hrefl]
  · intro props a u h1 h2 h3
    simp [queryName, h1, h2, h3, ptLtB_self]

/-- HX_VALUE-side capture stream for the C2 witness: a complete
`hx-get="/foo"` attribute, cursor probed exactly at the attribute node's
end (0,18). -/
def c2valueCaps : List Capture :=
  [⟨"attr_name", "hx-get", ⟨0, 5⟩, ⟨0, 11⟩⟩,
   ⟨"non_empty_attribute", "", ⟨0, 5⟩, ⟨0, 18⟩⟩,
   ⟨"attr_value", "/foo", ⟨0, 13⟩, ⟨0, 17⟩⟩]

/-- Witness for `c2_boundaries`, discharging every conjunct's hypotheses at
concrete inputs. -/
theorem c2_witness :
    (∃ c ∈ c2caps, ptLeB c.startPos ⟨0, 11⟩ = true
      ∧ c.capName = "attr_name"
      ∧ (⟨"hx-get", ⟨0, 11⟩⟩ : CaptureDetails) = ⟨c.text, c.endPos⟩) ∧
    queryName (queryProps c2caps ⟨0, 11⟩) ⟨0, 11⟩ .Hover
      = some (.AttributeName "hx-get") ∧
    queryValue (queryProps c2valueCaps ⟨0, 18⟩) ⟨0, 18⟩ .Hover = .ok none ∧
    queryName (queryProps c2caps ⟨0, 20⟩) ⟨0, 20⟩ .Completion
      = some (.AttributeName "hx-get") :=
  ⟨c2_boundaries.1 c2caps ⟨0, 11⟩ "attr_name" ⟨"hx-get", ⟨0, 11⟩⟩ rfl,
   c2_boundaries.2.1 (queryProps c2caps ⟨0, 11⟩)
     ⟨"hx-get", ⟨0, 11⟩⟩ ⟨"", ⟨0, 20⟩⟩ rfl rfl rfl,
   c2_boundaries.2.2.1 (queryProps c2valueCaps ⟨0, 18⟩)
     ⟨"hx-get", ⟨0, 11⟩⟩ ⟨"", ⟨0, 18⟩⟩ .Hover rfl rfl rfl rfl rfl
     (by decide),
   c2_boundaries.2.2.2 (queryProps c2caps ⟨0, 20⟩)
     ⟨"hx-get", ⟨0, 11⟩⟩ ⟨"", ⟨0, 20⟩⟩ rfl rfl rfl⟩

/-- Claim C3: over a parse where the `HX_NAME` query captures an
`unfinished_tag`, Completion mode returns the sentinel
`AttributeName("--")` for every cursor strictly past the unfinished tag's
end position; and when an `=`-adjacent error capture exists (the
`equal_error` capture of `HX_NAME`, with the matching `=` `error_char`
capture of `HX_VALUE`) and the cursor is not strictly past that end,
Completion mode returns none. The two cases are the successive arms of the
same `else if` chain in `query_name`, so the sentinel case takes
precedence, exactly as the spec lists them. -/
theorem c3_completion_unfinished
    (nameCaps valueCaps : List Capture) (tp : Point) (a u : CaptureDetails)
    (h1 : propsGet (queryProps nameCaps tp) "attr_name" = some a)
    (h2 : propsGet (queryProps nameCaps tp) "unfinished_tag" = some u) :
    (ptLtB u.endPos tp = true →
      queryPosition nameCaps valueCaps tp .Completion
        = .ok (some (.AttributeName "--")))
    ∧ (∀ (va ec : CaptureDetails),
      ptLtB u.endPos tp = false →
      (propsGet (queryProps nameCaps tp) "equal_error").isSome = true →
      propsGet (queryProps valueCaps tp) "attr_name" = some va →
      propsGet (queryProps valueCaps tp) "open_quote_error" = none →
      propsGet (queryProps valueCaps tp) "empty_attribute" = none →
      propsGet (queryProps valueCaps tp) "error_char" = some ec →
      ec.value = "=" →
      queryPosition nameCaps valueCaps tp .Completion = .ok none) := by
  constructor
  · intro hlt
    simp [queryPosition, queryName, h1, h2, hlt]
  · intro va ec hlt herr h3 h4 h5 h6 hec
    have hn : queryName (queryProps nameCaps tp) tp .Completion = none := by
      simp [queryName, h1, h2, hlt, herr]
    simp [queryPosition, hn, queryValue, h3, h4, h5, h6, hec]

/-- HX_NAME captures for the C3 witness: `<a hx-swap ...>` (attribute with
no value), unfinished tag ending at (0,10), no `equal_error`; mirrors the
repository test `ok222` where the cursor on the next line yields the
sentinel. -/
def c3nameCaps : List Capture :=
  [⟨"attr_name", "hx-swap", ⟨0, 3⟩, ⟨0, 10⟩⟩,
   ⟨"unfinished_tag", "", ⟨0, 0⟩, ⟨0, 10⟩⟩]

/-- HX_NAME captures for the C3 witness, second part: `<div hx-swap= >`
with an `=`-adjacent error capture; mirrors the repository test
`does_not_suggest_when_quote_not_initiated`. -/
def c3errNameCaps : List Capture :=
  [⟨"attr_name", "hx-swap", ⟨0, 5⟩, ⟨0, 12⟩⟩,
   ⟨"unfinished_tag", "", ⟨0, 0⟩, ⟨0, 15⟩⟩,
   ⟨"equal_error", "=", ⟨0, 12⟩, ⟨0, 13⟩⟩]

/-- HX_VALUE captures for the C3 witness, second part: the `=` shows up as
the `error_char` capture. -/
def c3errValueCaps : List Capture :=
  [⟨"attr_name", "hx-swap", ⟨0, 5⟩, ⟨0, 12⟩⟩,
   ⟨"error_char", "=", ⟨0, 12⟩, ⟨0, 13⟩⟩]

/-- Witness for `c3_completion_unfinished`: the sentinel at cursor (1,5)
strictly past the unfinished tag, and none at cursor (0,13) over the
`=`-error attribute. -/
theorem c3_witness :
    queryPosition c3nameCaps [] ⟨1, 5⟩ .Completion
      = .ok (some (.AttributeName "--")) ∧
    queryPosition c3errNameCaps c3errValueCaps ⟨0, 13⟩ .Completion
      = .ok none :=
  ⟨(c3_completion_unfinished c3nameCaps [] ⟨1, 5⟩
      ⟨"hx-swap", ⟨0, 10⟩⟩ ⟨"", ⟨0, 10⟩⟩ rfl rfl).1 (by decide),
   (c3_completion_unfinished c3errNameCaps c3errValueCaps ⟨0, 13⟩
      ⟨"hx-swap", ⟨0, 12⟩⟩ ⟨"", ⟨0, 15⟩⟩ rfl rfl).2
     ⟨"hx-swap", ⟨0, 12⟩⟩ ⟨"=", ⟨0, 13⟩⟩
     (by decide) rfl rfl rfl rfl rfl rfl⟩

/-! ## htmx_tree_sitter.rs — `LspFiles`

`LspFiles` holds: `current: RefCell<usize>` (the id counter),
`indexes: DashMap<String, usize>` (URI → FileId), `trees: DashMap<usize, _>`
(FileId → parse tree; the tree payload is irrelevant to every claim and is
modelled as the key set), and `tags: DashMap<String, Tag>` (the tag
registry). `DashMap`s are modelled as association lists; all entries are
created by insert-if-absent, which keeps keys unique. -/

/-- The tag registry: Rust `tags: DashMap<String, Tag>`, keyed by
`tag.name`. -/
def Registry := List (List Char × Tag)

/-- Rust `self.tags.contains_key(&tag.name)`. -/
def containsKey (r : Registry) (k : List Char) : Bool :=
  r.any (fun p => p.1 = k)

/-- Rust `DashMap::get` on the registry. -/
def lookupTag (r : Registry) (k : List Char) : Option Tag :=
  (r.find? (fun p => p.1 = k)).map (·.2)

/-- Rust `add_tag` (htmx_tree_sitter.rs lines 74-81): insert-if-absent;
on a name collision the offered Tag is handed back unchanged and the map is
untouched. -/
def addTag (r : Registry) (t : Tag) : Except Tag Registry :=
  if containsKey r t.name then .error t else .ok ((t.name, t) :: r)

/-- Rust `delete_tags_by_index` (htmx_tree_sitter.rs lines 61-72): collect
the keys of every entry whose Tag owns file `index`, then remove those keys.
With unique keys this is a filter on the entry's file id. -/
def deleteTagsByIndex (r : Registry) (index : Nat) : Registry :=
  r.filter (fun p => p.2.file ≠ index)

/-- Absence of a key survives filtering. -/
theorem containsKey_filter_false (r : Registry) (k : List Char)
    (p : List Char × Tag → Bool) (h : containsKey r k = false) :
    containsKey (r.filter p) k = false := by
  induction r with
  | nil => rfl
  | cons hd tl ih =>
    simp only [containsKey, List.any_cons, Bool.or_eq_false_iff] at h
    obtain ⟨h1, h2⟩ := h
    simp only [List.filter_cons]
    by_cases hp : p hd
    · simp only [if_pos hp, containsKey, List.any_cons,
        Bool.or_eq_false_iff]
      exact ⟨h1, ih h2⟩
    · simp only [if_neg hp]
      exact ih h2

/-- Claim C4: inserting two Tags with the same name (in either order — the
Tags are arbitrary) succeeds on the first and fails on the second,
returning the rejected Tag unchanged and leaving the stored Tag in place;
after `delete_tags_by_index` on the successful tag's file, re-inserting the
rejected tag succeeds. -/
theorem c4_duplicate_insert (r : Registry) (t1 t2 : Tag)
    (hname : t1.name = t2.name) (habs : containsKey r t1.name = false) :
    ∃ r1, addTag r t1 = .ok r1
      ∧ addTag r1 t2 = .error t2
      ∧ lookupTag r1 t1.name = some t1
      ∧ ∃ r2, addTag (deleteTagsByIndex r1 t1.file) t2 = .ok r2
          ∧ lookupTag r2 t2.name = some t2 := by
  refine ⟨(t1.name, t1) :: r, ?_, ?_, ?_, ?_⟩
  · simp [addTag, habs]
  · have : containsKey ((t1.name, t1) :: r) t2.name = true := by
      simp [containsKey, hname]
    simp [addTag, this]
  · simp [lookupTag, List.find?]
  · have hdel : deleteTagsByIndex ((t1.name, t1) :: r) t1.file
        = deleteTagsByIndex r t1.file := by
      simp [deleteTagsByIndex, List.filter_cons]
    have habs2 : containsKey (deleteTagsByIndex r t1.file) t2.name = false := by
      rw [← hname]
      exact containsKey_filter_false r t1.name _ habs
    refine ⟨(t2.name, t2) :: deleteTagsByIndex r t1.file, ?_, ?_⟩
    · rw [hdel]
      simp [addTag, habs2]
    · simp [lookupTag, List.find?]

/-- Witness for `c4_duplicate_insert`: two same-named tags from files 1
and 2 into the empty registry. -/
theorem c4_witness :
    ∃ r1, addTag [] ⟨strL "a", 0, 4, 1, 0⟩ = .ok r1
      ∧ addTag r1 ⟨strL "a", 5, 9, 2, 3⟩ = .error ⟨strL "a", 5, 9, 2, 3⟩
      ∧ lookupTag r1 (strL "a") = some ⟨strL "a", 0, 4, 1, 0⟩
      ∧ ∃ r2, addTag (deleteTagsByIndex r1 1) ⟨strL "a", 5, 9, 2, 3⟩ = .ok r2
          ∧ lookupTag r2 (strL "a") = some ⟨strL "a", 5, 9, 2, 3⟩ :=
  c4_duplicate_insert [] ⟨strL "a", 0, 4, 1, 0⟩ ⟨strL "a", 5, 9, 2, 3⟩
    rfl rfl

/-- The mutable state of Rust `LspFiles` (htmx_tree_sitter.rs lines
33-52). `Default` gives `current = 0` and empty maps. -/
structure LspFilesM where
  current : Nat
  indexes : List (String × Nat)
  trees : List Nat
  tags : Registry

/-- `LspFiles::default()`. -/
def lspDefault : LspFilesM := ⟨0, [], [], []⟩

/-- Rust `get_index` (htmx_tree_sitter.rs lines 96-102). -/
def getIndexL (s : LspFilesM) (key : String) : Option Nat :=
  (s.indexes.find? (fun p => p.1 = key)).map (·.2)

/-- Rust `get_uri` (htmx_tree_sitter.rs lines 104-112): linear scan for the
entry whose value is `index`. `DashMap` iteration order is unspecified; the
model fixes insertion order, and the value-uniqueness invariant proved in
`c9_file_ids` makes the answer independent of that choice. -/
def getUriL (s : LspFilesM) (index : Nat) : Option String :=
  (s.indexes.find? (fun p => p.2 = index)).map (·.1)

/-- Rust `add_file` (htmx_tree_sitter.rs lines 87-94): if the URI is
unregistered, post-increment the counter, bind the URI to the old counter
value and return it; otherwise return none and change nothing. -/
def addFileL (s : LspFilesM) (key : String) : LspFilesM × Option Nat :=
  match getIndexL s key with
  | some _ => (s, none)
  | none =>
    ({ s with
        current := s.current + 1,
        indexes := (key, s.current) :: s.indexes },
      some s.current)

/-- Rust `reset` (htmx_tree_sitter.rs lines 55-59): clears `indexes`,
`trees` and `tags`; `current` is NOT touched. -/
def resetL (s : LspFilesM) : LspFilesM :=
  { s with indexes := [], trees := [], tags := [] }

/-- Claim C8: registering an unregistered URI and reverse-looking-up the
returned FileId yields the same URI. -/
theorem c8_roundtrip (s : LspFilesM) (uri : String)
    (habs : getIndexL s uri = none) :
    (addFileL s uri).2 = some s.current
      ∧ getUriL (addFileL s uri).1 s.current = some uri := by
  constructor
  · simp [addFileL, habs]
  · simp [addFileL, habs, getUriL, List.find?]

/-- Witness for `c8_roundtrip` at the default state. -/
theorem c8_witness :
    (addFileL lspDefault "file:///a.rs").2 = some lspDefault.current
      ∧ getUriL (addFileL lspDefault "file:///a.rs").1 lspDefault.current
        = some "file:///a.rs" :=
  c8_roundtrip lspDefault "file:///a.rs" rfl

/-- An editor-session operation on `LspFiles`: a file registration or a
full reset (as performed at the start of every project walk). -/
inductive FOp where
  | addF (uri : String)
  | resetF

/-- One operation step; `add_file` returns the fresh id, `reset` returns
nothing. -/
def stepF (s : LspFilesM) : FOp → LspFilesM × Option Nat
  | .addF uri => addFileL s uri
  | .resetF => (resetL s, none)

/-- Run a sequence of operations, collecting every FileId handed out, in
order. -/
def runF (s : LspFilesM) : List FOp → LspFilesM × List Nat
  | [] => (s, [])
  | op :: rest =>
    let p := stepF s op
    let q := runF p.1 rest
    (q.1, p.2.toList ++ q.2)

/-- The state invariant behind claim C9: every bound id is below the
counter, and both URIs and ids are pairwise distinct. -/
def GoodState (s : LspFilesM) : Prop :=
  (∀ p ∈ s.indexes, p.2 < s.current)
    ∧ (s.indexes.map Prod.fst).Pairwise (· ≠ ·)
    ∧ (s.indexes.map Prod.snd).Pairwise (· ≠ ·)

/-- Main induction for claim C9: from a good state, any run preserves the
invariant, never decreases the counter, hands out strictly increasing ids,
and every id handed out is at least the starting counter and below the
final counter. -/
theorem runF_spec :
    ∀ (ops : List FOp) (s : LspFilesM), GoodState s →
      GoodState (runF s ops).1
        ∧ s.current ≤ (runF s ops).1.current
        ∧ (runF s ops).2.Pairwise (· < ·)
        ∧ (∀ i ∈ (runF s ops).2,
            s.current ≤ i ∧ i < (runF s ops).1.current) := by
  intro ops
  induction ops with
  | nil =>
    intro s hs
    exact ⟨hs, le_refl _, List.Pairwise.nil, by simp [runF]⟩
  | cons op rest ih =>
    intro s hs
    cases op with
    | resetF =>
      have hgood : GoodState (resetL s) := by
        refine ⟨by simp [resetL], by simp [resetL], by simp [resetL]⟩
      obtain ⟨g1, g2, g3, g4⟩ := ih (resetL s) hgood
      refine ⟨g1, g2, ?_, ?_⟩
      · simpa [runF, stepF] using g3
      · simpa [runF, stepF] using g4
    | addF uri =>
      cases hreg : getIndexL s uri with
      | some v =>
        have hstep : stepF s (.addF uri) = (s, none) := by
          simp [stepF, addFileL, hreg]
        have hr : runF s (.addF uri :: rest) = runF s rest := by
          simp [runF, hstep]
        rw [hr]
        exact ih s hs
      | none =>
        have hnone : s.indexes.find? (fun p => p.1 = uri) = none := by
          have h0 := hreg
          unfold getIndexL at h0
          exact Option.map_eq_none'.mp h0
        have hnotkey : ∀ p ∈ s.indexes, p.1 ≠ uri := by
          intro p hp
          have := List.find?_eq_none.mp hnone p hp
          simpa using this
        set s' : LspFilesM :=
          { s with
              current := s.current + 1,
              indexes := (uri, s.current) :: s.indexes } with hs'
        have hstep : stepF s (.addF uri) = (s', some s.current) := by
          rw [hs']
          simp [stepF, addFileL, hreg]
        have hgood : GoodState s' := by
          obtain ⟨i1, i2, i3⟩ := hs
          refine ⟨?_, ?_, ?_⟩
          · intro p hp
            rcases List.mem_cons.mp hp with h | h
            · subst h
              exact Nat.lt_succ_self _
            · exact Nat.lt_succ_of_lt (i1 p h)
          · refine List.Pairwise.cons ?_ i2
            intro k hk
            simp only [List.mem_map] at hk
            obtain ⟨p, hp, hpk⟩ := hk
            subst hpk
            exact fun he => hnotkey p hp he.symm
          · refine List.Pairwise.cons ?_ i3
            intro v hv
            simp only [List.mem_map] at hv
            obtain ⟨p, hp, hpv⟩ := hv
            subst hpv
            exact (Nat.ne_of_lt (i1 p hp)).symm
        obtain ⟨g1, g2, g3, g4⟩ := ih s' hgood
        have hr : runF s (.addF uri :: rest)
            = ((runF s' rest).1, s.current :: (runF s' rest).2) := by
          simp only [runF, hstep, Option.toList, List.singleton_append]
        rw [hr]
        have hcur : s'.current = s.current + 1 := rfl
        rw [hcur] at g2 g4
        refine ⟨g1, ?_, ?_, ?_⟩
        · show s.current ≤ (runF s' rest).1.current
          omega
        · show (s.current :: (runF s' rest).2).Pairwise (· < ·)
          refine List.Pairwise.cons ?_ g3
          intro i hi
          have := (g4 i hi).1
          omega
        · show ∀ i ∈ s.current :: (runF s' rest).2,
            s.current ≤ i ∧ i < (runF s' rest).1.current
          intro i hi
          rcases List.mem_cons.mp hi with h | h
          · subst h
            exact ⟨le_refl _, by omega⟩
          · have := g4 i h
            exact ⟨by omega, this.2⟩

/-- Claim C9: (1) `reset` clears the URI index, the tree map and the tag
map but does not reset the id counter; (2) starting from
`LspFiles::default()`, the FileIds handed out by any sequence of `add_file`
and `reset` operations are pairwise strictly increasing — later ids are
strictly greater than every earlier one, even across resets, so ids are
never reused; (3) after every such sequence the URI-to-FileId table is
bijective: URIs are pairwise distinct and ids are pairwise distinct. -/
theorem c9_file_ids :
    (∀ s : LspFilesM,
      stepF s .resetF
        = ({ s with indexes := [], trees := [], tags := [] }, none))
    ∧ (∀ ops : List FOp, (runF lspDefault ops).2.Pairwise (· < ·))
    ∧ (∀ ops : List FOp,
      ((runF lspDefault ops).1.indexes.map Prod.fst).Pairwise (· ≠ ·)
        ∧ ((runF lspDefault ops).1.indexes.map Prod.snd).Pairwise (· ≠ ·)) := by
  have hgood : GoodState lspDefault := by
    refine ⟨by simp [lspDefault], by simp [lspDefault], by simp [lspDefault]⟩
  refine ⟨fun s => rfl, ?_, ?_⟩
  · intro ops
    exact (runF_spec ops lspDefault hgood).2.2.1
  · intro ops
    exact ⟨(runF_spec ops lspDefault hgood).1.2.1,
      (runF_spec ops lspDefault hgood).1.2.2⟩

/-! ## config.rs — the initial project walk

The filesystem is an external collaborator, modelled as a function from a
root path to the entry stream `walkdir::WalkDir::new(root)` would yield:
each entry is either an iteration/metadata error (`Except.error`, e.g. for
a root that does not exist) or a file-system entry carrying the outcomes of
the `canonicalize` and `read_to_string` calls `add_file` will make on
it. -/

/-- Modelled from the spec: `LangType` lives in init_hx.rs, which is not
under src/; the spec (§6) defines the classification as
{Template, JavaScript, Backend}. -/
inductive LangTypeM where
  | Template
  | JavaScript
  | Backend
deriving DecidableEq, Repr

/-- Modelled from the spec: `LangTypes` (init_hx.rs, not under src/) is a
classification "or a two-element set {Backend, Template} when the backend
and template extensions coincide" (spec §6). -/
inductive LangTypesM where
  | one (l : LangTypeM)
  | two (a b : LangTypeM)
deriving DecidableEq, Repr

/-- Modelled from the spec: `is_lang` (init_hx.rs, not under src/) is
membership of a classification in the set. -/
def isLang : LangTypesM → LangTypeM → Bool
  | .one a, l => a = l
  | .two a b, l => a = l || b = l

/-- Rust `HtmxConfig` (config.rs lines 19-48): the fields the walk uses. -/
structure HtmxConfigM where
  lang : String
  template_ext : String
  templates : List String
  js_tags : List String
  backend_tags : List String

/-- Rust `HtmxConfig::is_backend` (config.rs lines 73-80). -/
def isBackend (cfg : HtmxConfigM) (ext : String) : Bool :=
  if cfg.lang = "rust" then ext = "rs"
  else if cfg.lang = "python" then ext = "py"
  else if cfg.lang = "go" then ext = "go"
  else false

/-- Rust `HtmxConfig::is_supported_backend` (config.rs lines 82-84). -/
def isSupportedBackend (cfg : HtmxConfigM) : Bool :=
  cfg.lang = "python" || cfg.lang = "rust" || cfg.lang = "go"

/-- A path, reduced to what `HtmxConfig::file_ext` reads from it:
`path.extension()?.to_str()`. -/
structure PathM where
  ext : Option String
deriving DecidableEq, Repr

/-- Rust `HtmxConfig::file_ext` (config.rs lines 52-71). -/
def fileExt (cfg : HtmxConfigM) (p : PathM) : Option LangTypesM :=
  match p.ext with
  | none => none
  | some e =>
    if e = "js" ∨ e = "ts" then some (.one .JavaScript)
    else if isBackend cfg e then
      if cfg.template_ext = e then some (.two .Backend .Template)
      else some (.one .Backend)
    else if e = cfg.template_ext then some (.one .Template)
    else none

/-- One filesystem entry as yielded to the walk: its path, whether it is a
file, and the outcomes of `std::fs::canonicalize` (`none` = failure,
`some s` = the canonical path string) and `read_to_string` (`none` =
unreadable). -/
structure FSEntry where
  path : PathM
  isFile : Bool
  canon : Option String
  content : Option String

/-- The mutable state threaded through the walk: the `LspFiles` store and
the `document_map`. -/
structure WalkSt where
  lsp : LspFilesM
  docMap : List (String × String)

/-- Rust `add_file` in config.rs (lines 183-204): canonicalize (failure
falls through to the final `None`), register `"file://" ++ name` (the `?`
returns `None` when the URI is already registered), read the contents
(failure maps to `None`), then insert the document, parse the tree
(`add_tree`; parsing is external, modelled as recording the FileId in the
tree key set) and extract tags (`add_tags_from_file` runs the external
`query_tag` from query_helper.rs; its tag output is not material to claim
C7 and is not modelled). -/
def addFileCfg (e : FSEntry) (st : WalkSt) : Option WalkSt :=
  match e.canon with
  | none => none
  | some name =>
    match addFileL st.lsp ("file://" ++ name) with
    | (_, none) => none
    | (lsp1, some file) =>
      match e.content with
      | none => none
      | some content =>
        some
          { lsp := { lsp1 with trees := file :: lsp1.trees },
            docMap := ("file://" ++ name, content) :: st.docMap }

/-- The inner loop of Rust `walkdir` (config.rs lines 144-177) over the
entries of one root: `entry?` / `entry.metadata()?` propagate an iteration
error (so a missing root aborts with the walkdir error); non-files are
skipped; files whose extension does not match the current language pass
are skipped; otherwise `add_file` runs and a `None` from it aborts the
whole walk with the error message `"Template path: {root} does not
exist"`. -/
def walkFiles (cfg : HtmxConfigM) (lang : LangTypeM) (root : String)
    (entries : List (Except Unit FSEntry)) (st : WalkSt) :
    Except String WalkSt :=
  match entries with
  | [] => .ok st
  | .error _ :: _ => .error "walkdir entry error"
  | .ok e :: rest =>
    if e.isFile then
      if (match fileExt cfg e.path with
          | some lt => isLang lt lang
          | none => false) then
        match addFileCfg e st with
        | none => .error ("Template path: " ++ root ++ " does not exist")
        | some st' => walkFiles cfg lang root rest st'
      else walkFiles cfg lang root rest st
    else walkFiles cfg lang root rest st

/-- One directory group of Rust `walkdir`: iterate the configured roots. -/
def walkRoots (cfg : HtmxConfigM) (lang : LangTypeM) (roots : List String)
    (fs : String → List (Except Unit FSEntry)) (st : WalkSt) :
    Except String WalkSt :=
  match roots with
  | [] => .ok st
  | r :: rest =>
    match walkFiles cfg lang r (fs r) st with
    | .error e => .error e
    | .ok st' => walkRoots cfg lang rest fs st'

/-- Rust `walkdir` (config.rs lines 123-180): reset the store, then walk
`[templates, js_tags, backend_tags]` with `LangType::from(index)` =
Template, JavaScript, Backend respectively (the `change_backend` calls on
queries/parsers are external and state-free here). On success it returns
the accumulated duplicate-tag diagnostics; the success payload here is the
final walk state (tag extraction itself is external, see
`addFileCfg`). -/
def walkdirM (cfg : HtmxConfigM)
    (fs : String → List (Except Unit FSEntry)) (lsp0 : LspFilesM) :
    Except String WalkSt :=
  match walkRoots cfg .Template cfg.templates fs ⟨resetL lsp0, []⟩ with
  | .error e => .error e
  | .ok st1 =>
    match walkRoots cfg .JavaScript cfg.js_tags fs st1 with
    | .error e => .error e
    | .ok st2 =>
      match walkRoots cfg .Backend cfg.backend_tags fs st2 with
      | .error e => .error e
      | .ok st3 => .ok st3

/-- Rust `read_config` (config.rs lines 100-119): validate the template
extension and the backend language, then walk. -/
def readConfigM (cfg : HtmxConfigM)
    (fs : String → List (Except Unit FSEntry)) (lsp0 : LspFilesM) :
    Except String WalkSt :=
  if cfg.template_ext = "" ∨ cfg.template_ext.toList.contains ' ' then
    .error "Template extension not found."
  else if ¬ isSupportedBackend cfg then
    .error ("Language " ++ cfg.lang ++ " is not supported.")
  else walkdirM cfg fs lsp0

/-- The C7 configuration: rust backend, `html` templates under `./t`. -/
def c7cfg : HtmxConfigM := ⟨"rust", "html", ["./t"], [], []⟩

/-- A filesystem whose only file under `./t` exists and matches the
template extension but cannot be read. -/
def c7fsUnreadable : String → List (Except Unit FSEntry) := fun r =>
  if r = "./t" then [.ok ⟨⟨some "html"⟩, true, some "/t/a.html", none⟩]
  else []

/-- A filesystem whose only file under `./t` fails canonicalization. -/
def c7fsNoCanon : String → List (Except Unit FSEntry) := fun r =>
  if r = "./t" then [.ok ⟨⟨some "html"⟩, true, none, some "x"⟩]
  else []

/-- A filesystem where the root `./t` itself does not exist, so the walk
iterator yields a single error entry. -/
def c7fsMissingRoot : String → List (Except Unit FSEntry) := fun r =>
  if r = "./t" then [.error ()] else []

/-- Claim C7 (code bug): a file that fails `read_to_string` or
`canonicalize` during the initial walk is NOT skipped silently — the whole
walk aborts with the error `"Template path: ./t does not exist"` (config.rs
lines 154-174: `add_file` returns `None` on those failures and `walkdir`
turns any `None` into that error), even though the path in the message
exists. Only the third conjunct — a configured root that does not exist
aborts the walk — matches the claim. -/
theorem c7_walk_aborts :
    readConfigM c7cfg c7fsUnreadable lspDefault
        = .error "Template path: ./t does not exist"
      ∧ readConfigM c7cfg c7fsNoCanon lspDefault
        = .error "Template path: ./t does not exist"
      ∧ readConfigM c7cfg c7fsMissingRoot lspDefault
        = .error "walkdir entry error" :=
  ⟨rfl, rfl, rfl⟩

end Htmx
